import Mathlib

/-!
Verification development for the `xrpl_defi` historical-ingestion pipeline.

Shallow embedding of the Python sources:
  * `robust_client.py`  — `RobustJsonRpcClient._request_impl` (retry loop)
  * `trades.py`         — `get_amm_trades`, `prepare_trades_data`
  * `amm.py`            — `fetch_amm_historical_payment_and_balances`,
                          `prepare_amm_data`
  * `asset.py`          — `decode_currency_symbol`
  * `utils/cache.py`    — `selective_lru_cache`

Machine conventions: ledger indexes and instants are `Int` (seconds),
monetary amounts and retry delays are `ℚ` (Python floats are used only as
exact decimal carriers in the code paths modelled here), fallible code
returns `Except`, generator loops are embedded as fuel-indexed recursion
where the Python loop's termination depends on the remote service.
-/

deriving instance DecidableEq for Except

namespace XrplDefi

/-! ## Resilient transport: `robust_client.py`, `RobustJsonRpcClient._request_impl`

One attempt of the `for attempt in range(self.max_retries + 1)` loop either
raises a retryable exception before an HTTP response is obtained
(`ConnectError`, timeouts, ...) or obtains a response with a status code and
a body that does or does not parse as JSON.  The body of the `try` block:

  * `status_code >= 500`  → raise `XRPLRequestFailureException` (caught, retried)
  * body parses as JSON   → `return json_to_response(...)` (any status < 500)
  * `JSONDecodeError`     → raise `XRPLRequestFailureException` (caught, retried)
-/

/-- What the `i`-th network attempt observes: either a transport-level
exception, or an HTTP response with a status code and a flag saying whether
`response.json()` succeeds. -/
inductive HttpOutcome where
  | netError : HttpOutcome
  | response (status : Nat) (jsonOk : Bool) : HttpOutcome
deriving DecidableEq

/-- The retryable exceptions the `except` clause catches, by provenance. -/
inductive AttemptFailure where
  | netError : AttemptFailure
  | serverError (status : Nat) : AttemptFailure
  | jsonDecode (status : Nat) : AttemptFailure
deriving DecidableEq

/-- Result of one body of the `try` block. `success` carries the decoded
response (identified by its HTTP status, which `json_to_response` passes
through whether or not the JSON body encodes an application-level error). -/
inductive AttemptResult where
  | success (status : Nat) : AttemptResult
  | retryable (e : AttemptFailure) : AttemptResult
deriving DecidableEq

/-- One iteration of the `try` block: status `>= 500` raises first, then the
body is JSON-decoded, a `JSONDecodeError` raising a retryable failure. -/
def classifyAttempt : HttpOutcome → AttemptResult
  | .netError => .retryable .netError
  | .response s jsonOk =>
      if 500 ≤ s then .retryable (.serverError s)
      else if jsonOk then .success s
      else .retryable (.jsonDecode s)

/-- Observable trace of a `_request_impl` run: the outcome, how many network
calls (`http_client.post`) were made, and the backoff sleeps in order. -/
structure RunTrace where
  result : Except AttemptFailure Nat
  calls : Nat
  sleeps : List ℚ

/-- The retry loop from attempt `i` with `rem` retries still allowed
(`rem = max_retries - i` throughout).  On a retryable failure with
`attempt < self.max_retries`, the code sleeps `retry_delay * 2 ** attempt`
and continues; on the last attempt it re-raises the failure. -/
def attemptLoop (d : ℚ) (f : Nat → HttpOutcome) : Nat → Nat → RunTrace
  | i, 0 =>
      match classifyAttempt (f i) with
      | .success v => ⟨.ok v, 1, []⟩
      | .retryable e => ⟨.error e, 1, []⟩
  | i, rem + 1 =>
      match classifyAttempt (f i) with
      | .success v => ⟨.ok v, 1, []⟩
      | .retryable _ =>
          let r := attemptLoop d f (i + 1) rem
          ⟨r.result, r.calls + 1, (d * 2 ^ i) :: r.sleeps⟩

/-- `_request_impl` with retry budget `maxRetries` (`R`, default 8) and base
delay `d` (default 2.5 s): `for attempt in range(max_retries + 1)`. -/
def requestImpl (maxRetries : Nat) (d : ℚ) (f : Nat → HttpOutcome) : RunTrace :=
  attemptLoop d f 0 maxRetries

lemma attemptLoop_allFail (d : ℚ) (f : Nat → HttpOutcome) (e : Nat → AttemptFailure) :
    ∀ rem i, (∀ k, k ≤ rem → classifyAttempt (f (i + k)) = .retryable (e (i + k))) →
      attemptLoop d f i rem =
        ⟨.error (e (i + rem)), rem + 1, (List.range rem).map fun j => d * 2 ^ (i + j)⟩ := by
  intro rem
  induction rem with
  | zero =>
      intro i h
      have h0 := h 0 (Nat.le_refl 0)
      simp only [Nat.add_zero] at h0
      simp [attemptLoop, h0]
  | succ n ih =>
      intro i h
      have h0 := h 0 (Nat.zero_le _)
      simp only [Nat.add_zero] at h0
      have hrec := ih (i + 1) (by
        intro k hk
        have := h (k + 1) (Nat.succ_le_succ hk)
        simpa [Nat.add_assoc, Nat.add_comm 1 k] using this)
      simp only [attemptLoop, h0, hrec]
      have hlist : (d * 2 ^ i) :: (List.range n).map (fun j => d * 2 ^ (i + 1 + j)) =
          (List.range (n + 1)).map fun j => d * 2 ^ (i + j) := by
        rw [List.range_succ_eq_map, List.map_cons, List.map_map]
        refine congrArg₂ _ (by simp) ?_
        refine List.map_congr_left ?_
        intro j _
        have hj : i + (j + 1) = i + 1 + j := by omega
        simp [Function.comp, hj]
      have hidx : i + 1 + n = i + (n + 1) := by omega
      rw [hidx, hlist]

lemma attemptLoop_firstSuccess (d : ℚ) (f : Nat → HttpOutcome) (v : Nat)
    (h : classifyAttempt (f 0) = .success v) :
    ∀ rem, attemptLoop d f 0 rem = ⟨.ok v, 1, []⟩ := by
  intro rem
  cases rem with
  | zero => simp [attemptLoop, h]
  | succ n => simp [attemptLoop, h]

lemma chain'_le_backoff (d : ℚ) (hd : 0 ≤ d) (R : Nat) :
    List.Chain' (· ≤ ·) ((List.range R).map fun i => d * 2 ^ i) := by
  cases R with
  | zero => simp
  | succ n =>
      rw [List.chain'_map]
      rw [List.chain'_range_succ]
      intro m _
      have h2 : (2 : ℚ) ^ m ≤ 2 ^ (m + 1) :=
        pow_le_pow_right₀ (by norm_num) (Nat.le_succ m)
      exact mul_le_mul_of_nonneg_left h2 hd

/-- C5.  With all `R + 1` attempts failing retryably, the run raises the last
attempt's error after exactly `R + 1` network calls and slept
`d * 2 ^ i` after the failure at attempt `i` for each `i < R`; these delays
are non-decreasing in `i`. -/
theorem transport_retry_budget_and_backoff
    (R : Nat) (d : ℚ) (f : Nat → HttpOutcome) (e : Nat → AttemptFailure)
    (hd : 0 ≤ d)
    (hf : ∀ k, k ≤ R → classifyAttempt (f k) = .retryable (e k)) :
    requestImpl R d f =
        ⟨.error (e R), R + 1, (List.range R).map fun i => d * 2 ^ i⟩ ∧
      List.Chain' (· ≤ ·) ((List.range R).map fun i => d * 2 ^ i) := by
  constructor
  · have := attemptLoop_allFail d f e R 0 (by intro k hk; simpa using hf k hk)
    simpa [requestImpl] using this
  · exact chain'_le_backoff d hd R

/-- Witness for `transport_retry_budget_and_backoff` at `R = 2`, `d = 5/2`,
every attempt a connection failure. -/
theorem transport_retry_budget_and_backoff_witness :
    requestImpl 2 (5 / 2) (fun _ => .netError) =
        ⟨.error .netError, 3, (List.range 2).map fun i => (5 / 2 : ℚ) * 2 ^ i⟩ ∧
      List.Chain' (· ≤ ·) ((List.range 2).map fun i => (5 / 2 : ℚ) * 2 ^ i) :=
  transport_retry_budget_and_backoff 2 (5 / 2) (fun _ => .netError)
    (fun _ => .netError) (by norm_num) (fun k _ => rfl)

lemma requestImpl_firstSuccess (R : Nat) (d : ℚ) (f : Nat → HttpOutcome) (v : Nat)
    (h : classifyAttempt (f 0) = .success v) :
    requestImpl R d f = ⟨.ok v, 1, []⟩ :=
  attemptLoop_firstSuccess d f v h R

/-- C6 counterexample.  A 4xx application-error response whose body is valid
JSON is *returned to the caller* by `_request_impl` (it does not fail at
all), and a 4xx response whose body is not JSON is *retried through the whole
budget* with backoff sleeps — the claim that such requests "fail immediately
on the first attempt, without sleeping, retrying, or consuming any of the
retry budget" is false on both counts. -/
theorem transport_4xx_counterexample :
    requestImpl 8 (5 / 2) (fun _ => .response 400 true) = ⟨.ok 400, 1, []⟩ ∧
      (requestImpl 8 (5 / 2) (fun _ => .response 400 false)).calls = 9 ∧
      (requestImpl 8 (5 / 2) (fun _ => .response 400 false)).sleeps.length = 8 := by
  refine ⟨?_, ?_, ?_⟩ <;> rfl

/-- C6 amended.  Any response with status `< 500` and a JSON-parseable body —
including 4xx application errors and `malformed request` error bodies, which
the XRPL protocol reports inside a JSON body — is decoded and returned on the
first attempt, with no sleep, no retry and no further network call; a
sub-500 response whose body fails to parse as JSON is classified retryable
(like a server error), not failed immediately. -/
theorem transport_sub500_json_returned_first_attempt
    (R : Nat) (d : ℚ) (f : Nat → HttpOutcome) (s : Nat)
    (hs : s < 500) (h0 : f 0 = .response s true) :
    requestImpl R d f = ⟨.ok s, 1, []⟩ ∧
      classifyAttempt (.response s false) = .retryable (.jsonDecode s) := by
  constructor
  · refine requestImpl_firstSuccess R d f s ?_
    rw [h0]
    simp [classifyAttempt, Nat.not_le.mpr hs]
  · simp [classifyAttempt, Nat.not_le.mpr hs]

/-- Witness for `transport_sub500_json_returned_first_attempt` with a 404
JSON response at the default budget. -/
theorem transport_sub500_json_returned_first_attempt_witness :
    requestImpl 8 (5 / 2) (fun _ => .response 404 true) = ⟨.ok 404, 1, []⟩ ∧
      classifyAttempt (.response 404 false) = .retryable (.jsonDecode 404) :=
  transport_sub500_json_returned_first_attempt 8 (5 / 2) (fun _ => .response 404 true)
    404 (by norm_num) rfl

/-! ## Paginated transaction walker: `trades.py`, `get_amm_trades`

The `while True` loop issues `AccountTx` page requests.  The pagination
marker is opaque and only round-tripped, so the service is modelled as a
function from the request ordinal to the page it returns (the `n`-th request
carries the marker returned by the `n-1`-th response).  The loop body drains
the page (`for tx in transactions`), yielding every transaction whose
`tx_json.TransactionType` is `Payment` or `OfferCreate` with the `market`
field injected, and tracking `tx_ledger_index` over *every* transaction of
the page; after the drain it breaks when
`tx_ledger_index is not None and tx_ledger_index >= cap`, and only otherwise
reads `response.get("marker")` and either breaks (no marker) or loops. -/

/-- A transaction as returned inside an `AccountTx` page.
`txType` is `tx.get("tx_json", {}).get("TransactionType")`. -/
structure TradeTx where
  ledger_index : Int
  txType : Option String
  hash : String
deriving DecidableEq

/-- One `AccountTx` response: the batch and the optional pagination marker
(`None`/absent modelled as `none`). -/
structure TradePage where
  txs : List TradeTx
  marker : Option Nat

/-- A yielded transaction: the tx dict with `tx["market"] = account`. -/
structure TradeEmit where
  tx : TradeTx
  market : String
deriving DecidableEq

/-- `cap = max_ledger_index if max_ledger_index is not None else latest_ledger`. -/
def resolveCap (max_ledger_index : Option Int) (latest_ledger : Int) : Int :=
  max_ledger_index.getD latest_ledger

/-- The post-drain break condition of both walkers:
`tx_ledger_index is not None and tx_ledger_index >= cap`. -/
def capReached (cap : Int) : Option Int → Bool
  | some v => decide (cap ≤ v)
  | none => false

/-- The type filter of `get_amm_trades`:
`TransactionType in ("Payment", "OfferCreate")`. -/
def tradeAdmit (tx : TradeTx) : Bool :=
  tx.txType = some "Payment" ∨ tx.txType = some "OfferCreate"

/-- The page-drain loop `for tx in transactions`: yields admitted
transactions in service order and updates `tx_ledger_index` for every
transaction.  Returns the final `tx_ledger_index` and the yields so far. -/
def drainTrades (market : String) :
    List TradeTx → Option Int → List TradeEmit → Option Int × List TradeEmit
  | [], lastIdx, acc => (lastIdx, acc)
  | tx :: rest, _, acc =>
      drainTrades market rest (some tx.ledger_index)
        (if tradeAdmit tx then acc ++ [⟨tx, market⟩] else acc)

/-- How a walker run ended: the `break` paths, or the modelling fuel ran out
(the Python loop has no own bound; it relies on the service). -/
inductive WalkStop where
  | done : WalkStop
  | fuelOut : WalkStop
deriving DecidableEq

/-- Observable trace of `get_amm_trades`: yielded events in order, number of
`AccountTx` page requests issued, and how the loop stopped. -/
structure TradeWalk where
  events : List TradeEmit
  requests : Nat
  stop : WalkStop
deriving DecidableEq

/-- The `while True` loop of `get_amm_trades`.  `n` is the ordinal of the
next page request, `lastIdx` the current `tx_ledger_index`, `acc` the events
yielded so far.  The cap check runs after draining the page and takes
priority over the marker check. -/
def walkTrades (svc : Nat → TradePage) (market : String) (cap : Int) :
    Nat → Nat → Option Int → List TradeEmit → TradeWalk
  | 0, _, _, acc => ⟨acc, 0, .fuelOut⟩
  | fuel + 1, n, lastIdx, acc =>
      let page := svc n
      let d := drainTrades market page.txs lastIdx acc
      if capReached cap d.1 then ⟨d.2, 1, .done⟩
      else
        match page.marker with
        | none => ⟨d.2, 1, .done⟩
        | some _ =>
            let r := walkTrades svc market cap fuel (n + 1) d.1 d.2
            ⟨r.events, r.requests + 1, r.stop⟩

/-! ## Currency symbol decoding: `asset.py`, `decode_currency_symbol`

`bytes.fromhex(currency).decode('utf-8')`: both steps can raise
(`ValueError` on malformed hex, `UnicodeDecodeError` on invalid UTF-8), and
no caller catches either exception. -/

/-- The exceptions `decode_currency_symbol` can raise. -/
inductive DecodeError where
  | valueError : DecodeError
  | unicodeDecodeError : DecodeError
deriving DecidableEq

/-- Value of one hexadecimal digit, as `bytes.fromhex` accepts them. -/
def hexDigitVal (c : Char) : Option Nat :=
  if '0' ≤ c ∧ c ≤ '9' then some (c.toNat - '0'.toNat)
  else if 'a' ≤ c ∧ c ≤ 'f' then some (c.toNat - 'a'.toNat + 10)
  else if 'A' ≤ c ∧ c ≤ 'F' then some (c.toNat - 'A'.toNat + 10)
  else none

/-- `bytes.fromhex`: pairs of hex digits, ASCII spaces allowed between
byte pairs, anything else (including an odd trailing digit) a `ValueError`. -/
def bytesFromHex : List Char → Option (List Nat)
  | [] => some []
  | ' ' :: rest => bytesFromHex rest
  | c1 :: c2 :: rest =>
      match hexDigitVal c1, hexDigitVal c2 with
      | some hi, some lo => (bytesFromHex rest).map ((16 * hi + lo) :: ·)
      | _, _ => none
  | _ => none

/-- Strict UTF-8 decoding of a byte list (as `bytes.decode('utf-8')`):
rejects stray continuation bytes, overlong encodings, surrogates and
code points beyond U+10FFFF. -/
def utf8Decode : List Nat → Option (List Char)
  | [] => some []
  | b :: rest =>
      if b < 0x80 then (utf8Decode rest).map (Char.ofNat b :: ·)
      else if b < 0xC2 then none
      else if b < 0xE0 then
        match rest with
        | b2 :: r =>
            if 0x80 ≤ b2 ∧ b2 < 0xC0 then
              (utf8Decode r).map (Char.ofNat ((b - 0xC0) * 64 + (b2 - 0x80)) :: ·)
            else none
        | [] => none
      else if b < 0xF0 then
        match rest with
        | b2 :: b3 :: r =>
            if (0x80 ≤ b2 ∧ b2 < 0xC0) ∧ (0x80 ≤ b3 ∧ b3 < 0xC0) then
              let cp := (b - 0xE0) * 4096 + (b2 - 0x80) * 64 + (b3 - 0x80)
              if 0x800 ≤ cp ∧ ¬(0xD800 ≤ cp ∧ cp ≤ 0xDFFF) then
                (utf8Decode r).map (Char.ofNat cp :: ·)
              else none
            else none
        | _ => none
      else if b < 0xF5 then
        match rest with
        | b2 :: b3 :: b4 :: r =>
            if (0x80 ≤ b2 ∧ b2 < 0xC0) ∧ (0x80 ≤ b3 ∧ b3 < 0xC0) ∧
                (0x80 ≤ b4 ∧ b4 < 0xC0) then
              let cp := (b - 0xF0) * 262144 + (b2 - 0x80) * 4096 +
                (b3 - 0x80) * 64 + (b4 - 0x80)
              if 0x10000 ≤ cp ∧ cp ≤ 0x10FFFF then
                (utf8Decode r).map (Char.ofNat cp :: ·)
              else none
            else none
        | _ => none
      else none

/-- `decode_currency_symbol(currency)` =
`bytes.fromhex(currency).decode('utf-8')`, with the exception it raises
made explicit. -/
def decode_currency_symbol (currency : String) : Except DecodeError String :=
  match bytesFromHex currency.toList with
  | none => .error .valueError
  | some bs =>
      match utf8Decode bs with
      | none => .error .unicodeDecodeError
      | some cs => .ok (String.mk cs)

/-! ## AMM scan: `amm.py`, `fetch_amm_historical_payment_and_balances`

The generator resolves the cap, decodes the AMM's two pool assets from
`AMMInfo`, then walks `AccountTx` pages.  For each transaction it records
`ledger_index`; a transaction with a truthy `tx_json` of type `Payment`
passes the interval gate (`timestamp - last_event < max_freq` → skip), is
joined with `AccountLines` (and `get_balance` when a pool asset is XRP) at
its own `ledger_index`, and is yielded with the pool amounts retrofitted.
After each page: stop if the last `ledger_index >= cap`, else follow the
marker. -/

/-- `tx_json`: the fields the scan reads. -/
structure TxJson where
  txType : String
  date : Int
deriving DecidableEq

/-- A transaction of an `AccountTx` page as `amm.py` reads it; `txJson` is
`tx.get("tx_json", {})`, `none` for a falsy/absent value. -/
structure AmmTx where
  ledger_index : Int
  txJson : Option TxJson
  hash : String
deriving DecidableEq

/-- One trust line of an `account_lines` response. -/
structure Line where
  currency : String
  balance : ℚ
deriving DecidableEq

/-- One `AccountTx` page for the AMM scan. -/
structure AmmPage where
  txs : List AmmTx
  marker : Option Nat

/-- The ledger-query service as the AMM scan observes it: the `n`-th
`AccountTx` page, the `account_lines` response at a ledger index, and the
XRP balance (in drops) `get_balance` reports at a ledger index. -/
structure AmmSvc where
  pages : Nat → AmmPage
  lines : Int → List Line
  xrpBalance : Int → Int

/-- An auxiliary state query issued by the joiner, with the ledger index it
is pinned to. -/
inductive AuxQuery where
  | accountLines (ledgerIndex : Int) : AuxQuery
  | balanceQuery (ledgerIndex : Int) : AuxQuery
deriving DecidableEq

/-- The ledger index a query is pinned to. -/
def AuxQuery.ledgerIndex : AuxQuery → Int
  | .accountLines i => i
  | .balanceQuery i => i

/-- A yielded record: the Payment transaction with the retrofitted keys
`amm_asset_1_amount`, `amm_asset_2_amount` (possibly never set),
`amm_asset_1`, `amm_asset_2` and `market`. -/
structure AmmRec where
  tx : AmmTx
  market : String
  amm_asset_1 : String
  amm_asset_2 : String
  amm_asset_1_amount : Option ℚ
  amm_asset_2_amount : Option ℚ
deriving DecidableEq

/-- `parse_amm_amount`: a plain string amount is XRP in drops; a dict amount
carries a hex currency code (decoded, which can raise) and a value. -/
inductive AmmAmount where
  | xrp (drops : Int) : AmmAmount
  | iou (currency : String) (value : ℚ) : AmmAmount

/-- `parse_amm_amount(amount)`, with the decode exception made explicit. -/
def parse_amm_amount : AmmAmount → Except DecodeError (String × ℚ)
  | .xrp drops => .ok ("XRP", (drops : ℚ) / 10 ^ 6)
  | .iou c v => (decode_currency_symbol c).map fun s => (s, v)

/-- The `for l in account_lines_response["lines"]` loop: an `asset_1` match
stores the balance and keeps scanning (a later match overwrites), an
`asset_2` match stores the balance and `break`s; a decode failure escapes. -/
def scanAccountLines (asset_1 asset_2 : String) :
    List Line → Option ℚ → Option ℚ → Except DecodeError (Option ℚ × Option ℚ)
  | [], m1, m2 => .ok (m1, m2)
  | l :: rest, m1, m2 =>
      match decode_currency_symbol l.currency with
      | .error e => .error e
      | .ok c =>
          if c = asset_1 then scanAccountLines asset_1 asset_2 rest (some l.balance) m2
          else if c = asset_2 then .ok (m1, some l.balance)
          else scanAccountLines asset_1 asset_2 rest m1 m2

/-- The state join for one sampled Payment at `ledger_index = idx`: the
`AccountLines` request pinned to `idx`, then — `if asset_1 == "XRP"` /
`elif asset_2 == "XRP"` — a `get_balance` call pinned to `idx` whose
drops overwrite the corresponding amount.  Returns the auxiliary queries
issued and the two amount fields (or the decode exception). -/
def joinEvent (svc : AmmSvc) (asset_1 asset_2 : String) (idx : Int) :
    List AuxQuery × Except DecodeError (Option ℚ × Option ℚ) :=
  match scanAccountLines asset_1 asset_2 (svc.lines idx) none none with
  | .error e => ([.accountLines idx], .error e)
  | .ok (m1, m2) =>
      if asset_1 = "XRP" then
        ([.accountLines idx, .balanceQuery idx],
          .ok (some ((svc.xrpBalance idx : ℚ) / 10 ^ 6), m2))
      else if asset_2 = "XRP" then
        ([.accountLines idx, .balanceQuery idx],
          .ok (m1, some ((svc.xrpBalance idx : ℚ) / 10 ^ 6)))
      else ([.accountLines idx], .ok (m1, m2))

/-- `ripple_time_to_datetime`: seconds since the Ripple epoch mapped to the
Unix timeline (the Ripple epoch 2000-01-01 is 946684800 Unix seconds). -/
def ripple_time_to_unix (rippleDate : Int) : Int :=
  rippleDate + 946684800

/-- The type filter: `tx_json and tx_json["TransactionType"] == "Payment"`. -/
def admitsPayment (tx : AmmTx) : Bool :=
  match tx.txJson with
  | some tj => tj.txType = "Payment"
  | none => false

/-- Timestamp of an admitted transaction
(`ripple_time_to_datetime(tx_json["date"])`). -/
def txTimestamp (tx : AmmTx) : Int :=
  match tx.txJson with
  | some tj => ripple_time_to_unix tj.date
  | none => 0

/-- The event filter and sampler in isolation: out of a transaction stream,
the subsequence the type filter and the `last_event` interval gate emit,
together with the final `last_event`.  `last_event` starts unset, the first
admitted event is always emitted, and an admitted event is emitted exactly
when `timestamp - last_event < max_freq` is false, whereupon `last_event`
becomes its timestamp. -/
def sampleRun (max_freq : Int) : List AmmTx → Option Int → List AmmTx × Option Int
  | [], last_event => ([], last_event)
  | tx :: rest, last_event =>
      if admitsPayment tx then
        let ts := txTimestamp tx
        match last_event with
        | some l =>
            if ts - l < max_freq then sampleRun max_freq rest (some l)
            else
              let r := sampleRun max_freq rest (some ts)
              (tx :: r.1, r.2)
        | none =>
            let r := sampleRun max_freq rest (some ts)
            (tx :: r.1, r.2)
      else sampleRun max_freq rest last_event

/-- Result of draining one page's `for tx in transactions` loop: the updated
`last_event`, the updated `ledger_index` variable and the yields so far — or
the decode exception escaping the generator with the yields already
delivered. -/
inductive DrainResult where
  | ok (last_event lastIdx : Option Int) (acc : List AmmRec) : DrainResult
  | failed (acc : List AmmRec) (e : DecodeError) : DrainResult
deriving DecidableEq

/-- The page-drain loop of `fetch_amm_historical_payment_and_balances`:
`ledger_index` is updated for every transaction; a truthy-`tx_json` Payment
is gated on `last_event`, joined at its own `ledger_index`, and yielded with
`last_event` updated to its timestamp. -/
def drainAmm (svc : AmmSvc) (account asset_1 asset_2 : String) (max_freq : Int) :
    List AmmTx → Option Int → Option Int → List AmmRec → DrainResult
  | [], last_event, lastIdx, acc => .ok last_event lastIdx acc
  | tx :: rest, last_event, _, acc =>
      let lastIdx' := some tx.ledger_index
      if admitsPayment tx then
        let ts := txTimestamp tx
        let gated : Bool := match last_event with
          | some l => decide (ts - l < max_freq)
          | none => false
        if gated then drainAmm svc account asset_1 asset_2 max_freq rest last_event lastIdx' acc
        else
          match (joinEvent svc asset_1 asset_2 tx.ledger_index).2 with
          | .error e => .failed acc e
          | .ok (m1, m2) =>
              drainAmm svc account asset_1 asset_2 max_freq rest (some ts) lastIdx'
                (acc ++ [⟨tx, account, asset_1, asset_2, m1, m2⟩])
      else drainAmm svc account asset_1 asset_2 max_freq rest last_event lastIdx' acc

/-- How the AMM scan generator ended. -/
inductive AmmStop where
  | done : AmmStop
  | decodeFailure : AmmStop
  | fuelOut : AmmStop
deriving DecidableEq

/-- Observable trace of the AMM scan: yielded records in order, `AccountTx`
page requests issued, and how the generator ended. -/
structure AmmWalk where
  events : List AmmRec
  requests : Nat
  stop : AmmStop
deriving DecidableEq

/-- The `while True` loop of `fetch_amm_historical_payment_and_balances`:
drain the `n`-th page, then `break` if `ledger_index is not None and
ledger_index >= cap` (this check precedes the marker read), else `break` if
no marker, else continue with the marker.  (When the very first page is
empty, CPython would raise `NameError` on the unbound `ledger_index`; the
`none` initial value models the variable as unbound and no theorem below
exercises that path.) -/
def walkAmm (svc : AmmSvc) (account asset_1 asset_2 : String)
    (max_freq cap : Int) :
    Nat → Nat → Option Int → Option Int → List AmmRec → AmmWalk
  | 0, _, _, _, acc => ⟨acc, 0, .fuelOut⟩
  | fuel + 1, n, last_event, lastIdx, acc =>
      let page := svc.pages n
      match drainAmm svc account asset_1 asset_2 max_freq page.txs last_event lastIdx acc with
      | .failed acc' _ => ⟨acc', 1, .decodeFailure⟩
      | .ok last_event' lastIdx' acc' =>
          if capReached cap lastIdx' then ⟨acc', 1, .done⟩
          else
            match page.marker with
            | none => ⟨acc', 1, .done⟩
            | some _ =>
                let r := walkAmm svc account asset_1 asset_2 max_freq cap fuel
                  (n + 1) last_event' lastIdx' acc'
                ⟨r.events, r.requests + 1, r.stop⟩

/-! ## C1: termination at the ledger-index cap -/

/-- C1.  In both walkers, after draining a page whose last observed
transaction ledger index reaches the window's cap (the caller-supplied
`max_ledger_index`, or else the latest validated index, per `resolveCap`),
the loop halts at once: exactly this one page request is issued from that
iteration on, even though the service returned a pagination marker for a
next page. -/
theorem walker_halts_at_cap :
    (∀ (svc : Nat → TradePage) (market : String) (mli : Option Int) (latest : Int)
        (fuel n : Nat) (lastIdx : Option Int) (acc : List TradeEmit) (v : Int) (m : Nat),
      (drainTrades market (svc n).txs lastIdx acc).1 = some v →
      resolveCap mli latest ≤ v →
      (svc n).marker = some m →
      walkTrades svc market (resolveCap mli latest) (fuel + 1) n lastIdx acc =
        ⟨(drainTrades market (svc n).txs lastIdx acc).2, 1, .done⟩) ∧
    (∀ (svc : AmmSvc) (account asset_1 asset_2 : String) (max_freq : Int)
        (mli : Option Int) (latest : Int) (fuel n : Nat)
        (last_event lastIdx : Option Int) (acc : List AmmRec)
        (le' li' : Option Int) (acc' : List AmmRec) (v : Int) (m : Nat),
      drainAmm svc account asset_1 asset_2 max_freq (svc.pages n).txs last_event lastIdx acc =
        .ok le' li' acc' →
      li' = some v →
      resolveCap mli latest ≤ v →
      (svc.pages n).marker = some m →
      walkAmm svc account asset_1 asset_2 max_freq (resolveCap mli latest) (fuel + 1) n
        last_event lastIdx acc = ⟨acc', 1, .done⟩) := by
  constructor
  · intro svc market mli latest fuel n lastIdx acc v m h1 hv _
    simp [walkTrades, h1, capReached, hv]
  · intro svc account asset_1 asset_2 max_freq mli latest fuel n last_event lastIdx acc
      le' li' acc' v m hdrain hli hv _
    subst hli
    simp [walkAmm, hdrain, capReached, hv]

/-- A one-page trades service whose only transaction sits at the cap and
which still returns a marker. -/
def svcTradesW : Nat → TradePage :=
  fun _ => ⟨[⟨1000, some "Payment", "h1000"⟩], some 7⟩

/-- An AMM service for witnesses: one Payment at ledger index 1000, a marker
for a further page, and empty account lines everywhere. -/
def svcAmmW : AmmSvc where
  pages := fun _ => ⟨[⟨1000, some ⟨"Payment", 0⟩, "h1000"⟩], some 7⟩
  lines := fun _ => []
  xrpBalance := fun _ => 0

/-- Witness for `walker_halts_at_cap`: both walkers, cap 900 < 1000, marker
present, exactly one page request. -/
theorem walker_halts_at_cap_witness :
    walkTrades svcTradesW "m" (resolveCap (some 900) 5000) 3 0 none [] =
        ⟨[⟨⟨1000, some "Payment", "h1000"⟩, "m"⟩], 1, .done⟩ ∧
      walkAmm svcAmmW "acc" "A" "B" 3600 (resolveCap (some 900) 5000) 3 0 none none [] =
        ⟨[⟨⟨1000, some ⟨"Payment", 0⟩, "h1000"⟩, "acc", "A", "B", none, none⟩], 1, .done⟩ := by
  constructor
  · exact walker_halts_at_cap.1 svcTradesW "m" (some 900) 5000 2 0 none [] 1000 7
      rfl (by decide) rfl
  · exact walker_halts_at_cap.2 svcAmmW "acc" "A" "B" 3600 (some 900) 5000 2 0 none none []
      (some 946684800) (some 1000)
      [⟨⟨1000, some ⟨"Payment", 0⟩, "h1000"⟩, "acc", "A", "B", none, none⟩] 1000 7
      (by decide) rfl (by decide) rfl

/-! ## C2: the `maxIndex` bound on emitted events

Scenario of the spec: window `{minIndex: -1, maxIndex: 1000}`, page size 2,
history at ledger indices `[100, 150, 1000, 1200]` split across two pages. -/

/-- The scenario service: pages `[100, 150]` then `[1000, 1200]`, each with
a marker for a next page. -/
def svcScenario : Nat → TradePage
  | 0 => ⟨[⟨100, some "Payment", "h100"⟩, ⟨150, some "Payment", "h150"⟩], some 1⟩
  | 1 => ⟨[⟨1000, some "Payment", "h1000"⟩, ⟨1200, some "Payment", "h1200"⟩], some 2⟩
  | _ => ⟨[], none⟩

/-- C2 counterexample.  In the spec's own scenario the walker *does* emit
the transaction at ledger index 1200 > maxIndex = 1000: the cap check runs
only after a page is fully drained, and 1200 shares the final page with
1000.  The claim that no event above `maxIndex` is ever emitted, and that
this scenario stops without emitting 1200, is false. -/
theorem walker_emits_beyond_cap_counterexample :
    (walkTrades svcScenario "m" (resolveCap (some 1000) 5000) 10 0 none []).events.map
        (fun e => e.tx.ledger_index) = [100, 150, 1000, 1200] := by
  decide

/-- C2 amended.  The bound `maxIndex` limits the *pages requested*, not the
events emitted: the walker drains every fetched page in full, so events of
the final page whose ledger index exceeds `maxIndex` are still emitted.  In
the scenario the walker emits the events at 100, 150, 1000 and 1200 and
stops after exactly two page requests, never requesting a third page. -/
theorem walker_scenario_bounded_requests :
    walkTrades svcScenario "m" (resolveCap (some 1000) 5000) 10 0 none [] =
      ⟨[⟨⟨100, some "Payment", "h100"⟩, "m"⟩, ⟨⟨150, some "Payment", "h150"⟩, "m"⟩,
        ⟨⟨1000, some "Payment", "h1000"⟩, "m"⟩, ⟨⟨1200, some "Payment", "h1200"⟩, "m"⟩],
        2, .done⟩ := by
  decide

/-! ## C3: the interval gate -/

/-- All auxiliary data the service holds decodes: the join never raises.
(The sampler claims are about the emitted stream of a scan that runs to
its events; a decode exception aborting the generator is C8's subject.) -/
def joinAlwaysOk (svc : AmmSvc) (asset_1 asset_2 : String) : Prop :=
  ∀ idx, ∃ p, (joinEvent svc asset_1 asset_2 idx).2 = .ok p

/-- The `ledger_index` variable after draining `txs` on top of `lastIdx`:
the last transaction's ledger index, or `lastIdx` for an empty page. -/
def lastIdxAfter : List AmmTx → Option Int → Option Int
  | [], lastIdx => lastIdx
  | tx :: rest, _ => lastIdxAfter rest (some tx.ledger_index)

lemma lastIdxAfter_cons (tx : AmmTx) (rest : List AmmTx) (li : Option Int) :
    lastIdxAfter (tx :: rest) li = lastIdxAfter rest (some tx.ledger_index) := rfl

/-- Draining a page is the sampler run over its transactions, with every
gate-passing transaction joined and yielded: same final `last_event`, the
`ledger_index` of the page's last transaction, and yields extending `acc`
by records whose transactions are exactly the sampler's output. -/
lemma drainAmm_eq_sampleRun (svc : AmmSvc) (account asset_1 asset_2 : String)
    (max_freq : Int) (hok : joinAlwaysOk svc asset_1 asset_2) :
    ∀ (txs : List AmmTx) (last_event lastIdx : Option Int) (acc : List AmmRec),
      ∃ recs, drainAmm svc account asset_1 asset_2 max_freq txs last_event lastIdx acc =
          .ok (sampleRun max_freq txs last_event).2 (lastIdxAfter txs lastIdx) (acc ++ recs) ∧
        recs.map AmmRec.tx = (sampleRun max_freq txs last_event).1 := by
  intro txs
  induction txs with
  | nil =>
      intro last_event lastIdx acc
      exact ⟨[], by simp [drainAmm, sampleRun, lastIdxAfter]⟩
  | cons tx rest ih =>
      intro last_event lastIdx acc
      rw [lastIdxAfter_cons]
      by_cases hadm : admitsPayment tx
      · have hgate : ∀ r, drainAmm svc account asset_1 asset_2 max_freq (tx :: rest)
            last_event lastIdx acc = r →
            (sampleRun max_freq (tx :: rest) last_event =
              sampleRun max_freq (tx :: rest) last_event) := fun _ _ => rfl
        clear hgate
        cases hle : last_event with
        | some l =>
            by_cases hg : txTimestamp tx - l < max_freq
            · obtain ⟨recs, h1, h2⟩ := ih (some l) (some tx.ledger_index) acc
              refine ⟨recs, ?_, ?_⟩
              · simpa [drainAmm, sampleRun, hadm, hg] using h1
              · simpa [sampleRun, hadm, hg] using h2
            · obtain ⟨⟨m1, m2⟩, hj⟩ := hok tx.ledger_index
              obtain ⟨recs, h1, h2⟩ := ih (some (txTimestamp tx)) (some tx.ledger_index)
                (acc ++ [⟨tx, account, asset_1, asset_2, m1, m2⟩])
              refine ⟨⟨tx, account, asset_1, asset_2, m1, m2⟩ :: recs, ?_, ?_⟩
              · rw [show (acc ++ [⟨tx, account, asset_1, asset_2, m1, m2⟩]) ++ recs =
                  acc ++ (⟨tx, account, asset_1, asset_2, m1, m2⟩ :: recs) from by simp] at h1
                simpa [drainAmm, sampleRun, hadm, hg, hj] using h1
              · simpa [sampleRun, hadm, hg] using h2
        | none =>
            obtain ⟨⟨m1, m2⟩, hj⟩ := hok tx.ledger_index
            obtain ⟨recs, h1, h2⟩ := ih (some (txTimestamp tx)) (some tx.ledger_index)
              (acc ++ [⟨tx, account, asset_1, asset_2, m1, m2⟩])
            refine ⟨⟨tx, account, asset_1, asset_2, m1, m2⟩ :: recs, ?_, ?_⟩
            · rw [show (acc ++ [⟨tx, account, asset_1, asset_2, m1, m2⟩]) ++ recs =
                acc ++ (⟨tx, account, asset_1, asset_2, m1, m2⟩ :: recs) from by simp] at h1
              simpa [drainAmm, sampleRun, hadm, hj] using h1
            · simpa [sampleRun, hadm] using h2
      · obtain ⟨recs, h1, h2⟩ := ih last_event (some tx.ledger_index) acc
        refine ⟨recs, ?_, ?_⟩
        · simpa [drainAmm, sampleRun, hadm] using h1
        · simpa [sampleRun, hadm] using h2

lemma sampleRun_append (max_freq : Int) :
    ∀ (l1 l2 : List AmmTx) (le : Option Int),
      (sampleRun max_freq (l1 ++ l2) le).1 =
          (sampleRun max_freq l1 le).1 ++
            (sampleRun max_freq l2 (sampleRun max_freq l1 le).2).1 ∧
        (sampleRun max_freq (l1 ++ l2) le).2 =
          (sampleRun max_freq l2 (sampleRun max_freq l1 le).2).2 := by
  intro l1
  induction l1 with
  | nil => intro l2 le; simp [sampleRun]
  | cons tx rest ih =>
      intro l2 le
      by_cases hadm : admitsPayment tx
      · cases le with
        | some l =>
            by_cases hg : txTimestamp tx - l < max_freq
            · simpa [sampleRun, hadm, hg] using ih l2 (some l)
            · simpa [sampleRun, hadm, hg] using ih l2 (some (txTimestamp tx))
        | none => simpa [sampleRun, hadm] using ih l2 (some (txTimestamp tx))
      · simpa [sampleRun, hadm] using ih l2 le

/-- Transactions of the pages `n, n+1, ..., n+k-1`, in service order. -/
def pagesTxsFrom (svc : AmmSvc) (n k : Nat) : List AmmTx :=
  ((List.range k).map fun j => (svc.pages (n + j)).txs).flatten

lemma pagesTxsFrom_zero (svc : AmmSvc) (n : Nat) : pagesTxsFrom svc n 0 = [] := by
  simp [pagesTxsFrom]

lemma pagesTxsFrom_succ (svc : AmmSvc) (n k : Nat) :
    pagesTxsFrom svc n (k + 1) = (svc.pages n).txs ++ pagesTxsFrom svc (n + 1) k := by
  unfold pagesTxsFrom
  rw [List.range_succ_eq_map, List.map_cons, List.map_map, List.flatten_cons]
  refine congrArg₂ _ (by simp) (congrArg _ ?_)
  refine List.map_congr_left fun j _ => ?_
  have hj : n + (j + 1) = n + 1 + j := by omega
  simp [Function.comp, hj]

/-- The events a scan yields are exactly the sampler's output over the
transactions of the pages it requested. -/
lemma walkAmm_events_eq_sampleRun (svc : AmmSvc) (account asset_1 asset_2 : String)
    (max_freq cap : Int) (hok : joinAlwaysOk svc asset_1 asset_2) :
    ∀ (fuel n : Nat) (last_event lastIdx : Option Int) (acc : List AmmRec),
      ∃ recs,
        (walkAmm svc account asset_1 asset_2 max_freq cap fuel n last_event lastIdx acc).events =
            acc ++ recs ∧
          recs.map AmmRec.tx =
            (sampleRun max_freq
              (pagesTxsFrom svc n
                (walkAmm svc account asset_1 asset_2 max_freq cap fuel n
                  last_event lastIdx acc).requests)
              last_event).1 := by
  intro fuel
  induction fuel with
  | zero =>
      intro n last_event lastIdx acc
      exact ⟨[], by simp [walkAmm, pagesTxsFrom_zero, sampleRun]⟩
  | succ fuel ih =>
      intro n last_event lastIdx acc
      obtain ⟨recs1, hd, hm1⟩ :=
        drainAmm_eq_sampleRun svc account asset_1 asset_2 max_freq hok
          (svc.pages n).txs last_event lastIdx acc
      cases hstop : capReached cap (lastIdxAfter (svc.pages n).txs lastIdx) with
      | true =>
          refine ⟨recs1, ?_, ?_⟩
          · simp [walkAmm, hd, hstop]
          · simp only [walkAmm, hd, hstop, if_true]
            simpa [pagesTxsFrom_succ, pagesTxsFrom_zero] using hm1
      | false =>
          cases hmk : (svc.pages n).marker with
          | none =>
              refine ⟨recs1, ?_, ?_⟩
              · simp [walkAmm, hd, hstop, hmk]
              · simp only [walkAmm, hd, hstop, hmk, Bool.false_eq_true, if_false]
                simpa [pagesTxsFrom_succ, pagesTxsFrom_zero] using hm1
          | some mk =>
              obtain ⟨recs2, h2, hm2⟩ := ih (n + 1) (sampleRun max_freq (svc.pages n).txs
                last_event).2 (lastIdxAfter (svc.pages n).txs lastIdx) (acc ++ recs1)
              refine ⟨recs1 ++ recs2, ?_, ?_⟩
              · simp only [walkAmm, hd, hstop, hmk, Bool.false_eq_true, if_false]
                simp [h2, List.append_assoc]
              · simp only [walkAmm, hd, hstop, hmk, Bool.false_eq_true, if_false]
                rw [pagesTxsFrom_succ,
                  (sampleRun_append max_freq (svc.pages n).txs _ last_event).1,
                  List.map_append, hm1]
                exact congrArg₂ _ rfl hm2

lemma sampleRun_chain (max_freq : Int) :
    ∀ (txs : List AmmTx) (le : Option Int),
      List.Chain' (fun a b => max_freq ≤ txTimestamp b - txTimestamp a)
          (sampleRun max_freq txs le).1 ∧
        ∀ l, le = some l → ∀ h, ((sampleRun max_freq txs le).1).head? = some h →
          max_freq ≤ txTimestamp h - l := by
  intro txs
  induction txs with
  | nil =>
      intro le
      refine ⟨by simp [sampleRun], ?_⟩
      intro l _ h hh
      simp [sampleRun] at hh
  | cons tx rest ih =>
      intro le
      by_cases hadm : admitsPayment tx
      · cases le with
        | some l =>
            by_cases hg : txTimestamp tx - l < max_freq
            · refine ⟨?_, ?_⟩
              · simpa [sampleRun, hadm, hg] using (ih (some l)).1
              · intro l' hl' h hh
                injection hl' with hl'
                subst hl'
                refine (ih (some l)).2 l rfl h ?_
                simpa [sampleRun, hadm, hg] using hh
            · have hcons : (sampleRun max_freq (tx :: rest) (some l)).1 =
                  tx :: (sampleRun max_freq rest (some (txTimestamp tx))).1 := by
                simp [sampleRun, hadm, hg]
              refine ⟨?_, ?_⟩
              · rw [hcons, List.chain'_cons']
                exact ⟨fun y hy => (ih (some (txTimestamp tx))).2 _ rfl y hy,
                  (ih (some (txTimestamp tx))).1⟩
              · intro l' hl' h hh
                injection hl' with hl'
                subst hl'
                rw [hcons] at hh
                simp only [List.head?_cons, Option.some.injEq] at hh
                subst hh
                omega
        | none =>
            have hcons : (sampleRun max_freq (tx :: rest) none).1 =
                tx :: (sampleRun max_freq rest (some (txTimestamp tx))).1 := by
              simp [sampleRun, hadm]
            refine ⟨?_, ?_⟩
            · rw [hcons, List.chain'_cons']
              exact ⟨fun y hy => (ih (some (txTimestamp tx))).2 _ rfl y hy,
                (ih (some (txTimestamp tx))).1⟩
            · intro l hl
              cases hl
      · refine ⟨?_, ?_⟩
        · simpa [sampleRun, hadm] using (ih le).1
        · intro l hl h hh
          subst hl
          refine (ih (some l)).2 l rfl h ?_
          simpa [sampleRun, hadm] using hh

lemma sampleRun_head (max_freq : Int) :
    ∀ txs : List AmmTx,
      ((sampleRun max_freq txs none).1).head? = (txs.filter admitsPayment).head? := by
  intro txs
  induction txs with
  | nil => simp [sampleRun]
  | cons tx rest ih =>
      by_cases hadm : admitsPayment tx
      · simp [sampleRun, hadm]
      · simpa [sampleRun, hadm] using ih

/-- C3.  For a scan whose auxiliary joins succeed, the emitted stream is
exactly the interval-gate fold over the type-admitted transactions of the
requested pages (an admitted event is emitted iff `last_event` is unset or
`timestamp - last_event >= max_freq`, which then becomes the new
`last_event`); hence the first type-admitted transaction is always emitted,
and consecutive emitted records are at least `max_freq` apart. -/
theorem sampler_first_emit_and_min_interval
    (svc : AmmSvc) (account asset_1 asset_2 : String) (max_freq cap : Int)
    (fuel : Nat) (w : AmmWalk)
    (hok : joinAlwaysOk svc asset_1 asset_2)
    (hw : walkAmm svc account asset_1 asset_2 max_freq cap fuel 0 none none [] = w) :
    w.events.map AmmRec.tx = (sampleRun max_freq (pagesTxsFrom svc 0 w.requests) none).1 ∧
      (w.events.map AmmRec.tx).head? =
        ((pagesTxsFrom svc 0 w.requests).filter admitsPayment).head? ∧
      List.Chain' (fun a b => max_freq ≤ txTimestamp b - txTimestamp a)
        (w.events.map AmmRec.tx) := by
  obtain ⟨recs, h1, h2⟩ := walkAmm_events_eq_sampleRun svc account asset_1 asset_2
    max_freq cap hok fuel 0 none none []
  rw [hw] at h1 h2
  simp only [List.nil_append] at h1
  have hmap : w.events.map AmmRec.tx =
      (sampleRun max_freq (pagesTxsFrom svc 0 w.requests) none).1 := by
    rw [h1, h2]
  refine ⟨hmap, ?_, ?_⟩
  · rw [hmap]
    exact sampleRun_head max_freq _
  · rw [hmap]
    exact (sampleRun_chain max_freq _ none).1

/-- An AMM service for the sampler witness: one page of three Payments 0 s,
1800 s and 7200 s after the Ripple epoch. -/
def svcAmmC3 : AmmSvc where
  pages := fun _ =>
    ⟨[⟨10, some ⟨"Payment", 0⟩, "h10"⟩, ⟨20, some ⟨"Payment", 1800⟩, "h20"⟩,
      ⟨30, some ⟨"Payment", 7200⟩, "h30"⟩], none⟩
  lines := fun _ => []
  xrpBalance := fun _ => 0

/-- Witness for `sampler_first_emit_and_min_interval`: with a one-hour gate
the events 30 minutes apart collapse onto the first, the event two hours
later is emitted. -/
theorem sampler_first_emit_and_min_interval_witness :
    (AmmWalk.mk
        [⟨⟨10, some ⟨"Payment", 0⟩, "h10"⟩, "acc", "A", "B", none, none⟩,
          ⟨⟨30, some ⟨"Payment", 7200⟩, "h30"⟩, "acc", "A", "B", none, none⟩] 1 .done).events.map
          AmmRec.tx =
        (sampleRun 3600 (pagesTxsFrom svcAmmC3 0 (AmmWalk.mk
          [⟨⟨10, some ⟨"Payment", 0⟩, "h10"⟩, "acc", "A", "B", none, none⟩,
            ⟨⟨30, some ⟨"Payment", 7200⟩, "h30"⟩, "acc", "A", "B", none, none⟩] 1 .done).requests)
          none).1 ∧
      ((AmmWalk.mk
          [⟨⟨10, some ⟨"Payment", 0⟩, "h10"⟩, "acc", "A", "B", none, none⟩,
            ⟨⟨30, some ⟨"Payment", 7200⟩, "h30"⟩, "acc", "A", "B", none, none⟩] 1 .done).events.map
            AmmRec.tx).head? =
        ((pagesTxsFrom svcAmmC3 0 (AmmWalk.mk
          [⟨⟨10, some ⟨"Payment", 0⟩, "h10"⟩, "acc", "A", "B", none, none⟩,
            ⟨⟨30, some ⟨"Payment", 7200⟩, "h30"⟩, "acc", "A", "B", none, none⟩] 1
            .done).requests).filter admitsPayment).head? ∧
      List.Chain' (fun a b => (3600 : Int) ≤ txTimestamp b - txTimestamp a)
        ((AmmWalk.mk
          [⟨⟨10, some ⟨"Payment", 0⟩, "h10"⟩, "acc", "A", "B", none, none⟩,
            ⟨⟨30, some ⟨"Payment", 7200⟩, "h30"⟩, "acc", "A", "B", none, none⟩] 1 .done).events.map
          AmmRec.tx) :=
  sampler_first_emit_and_min_interval svcAmmC3 "acc" "A" "B" 3600 1000000 5 _
    (fun idx => ⟨(none, none), rfl⟩) (by decide)

/-! ## Record assembly: `amm.py`, `prepare_amm_data`

The loop reads `tx["tx_json"]["date"]` (a `KeyError` on a record without a
truthy `tx_json`), builds one flat entry per record with
`tx.get("amm_asset_1_amount")` / `tx.get("amm_asset_2_amount")` (absent keys
become unset, not errors), asserts the list is non-empty
(`"No AMM data found"`), and sorts with `df.sort_values(by="timestamp")`. -/

/-- The exceptions `prepare_amm_data` can raise. -/
inductive PrepareError where
  | keyError : PrepareError
  | noAmmDataFound : PrepareError
deriving DecidableEq

/-- One flat output entry of `prepare_amm_data`.  `raw_json` is the
`json.dumps(tx)` audit blob, kept as the record itself (opaque). -/
structure AmmEntry where
  timestamp : Int
  tx_hash : String
  ledger_index : Int
  market : String
  amm_asset_1 : String
  amm_asset_2 : String
  amm_asset_1_amount : Option ℚ
  amm_asset_2_amount : Option ℚ
  raw_json : AmmRec
deriving DecidableEq

/-- One iteration of the entry-building loop; `none` is the `KeyError` on
`tx["tx_json"]["date"]`. -/
def entryOfAmmRec (r : AmmRec) : Option AmmEntry :=
  match r.tx.txJson with
  | none => none
  | some tj => some
      { timestamp := ripple_time_to_unix tj.date
        tx_hash := r.tx.hash
        ledger_index := r.tx.ledger_index
        market := r.market
        amm_asset_1 := r.amm_asset_1
        amm_asset_2 := r.amm_asset_2
        amm_asset_1_amount := r.amm_asset_1_amount
        amm_asset_2_amount := r.amm_asset_2_amount
        raw_json := r }

/-- The sort key of `df.sort_values(by="timestamp")`: the timestamp column
alone; no other column takes part in the comparison. -/
def entryLE (a b : AmmEntry) : Prop :=
  a.timestamp ≤ b.timestamp

instance : DecidableRel entryLE := fun a b =>
  inferInstanceAs (Decidable (a.timestamp ≤ b.timestamp))

instance : IsTotal AmmEntry entryLE := ⟨fun a b => Int.le_total a.timestamp b.timestamp⟩

instance : IsTrans AmmEntry entryLE := ⟨fun _ _ _ => Int.le_trans⟩

/-- `df.sort_values(by="timestamp")`: a single-key sort on `timestamp`,
pandas' default `kind="quicksort"` (numpy introsort).  numpy's introsort is
*not* stable in general: only below its 16-element cutoff does it run plain
insertion sort, where this model is byte-exact (the counterexample below
uses 2 rows).  For longer inputs the program guarantees no particular order
among equal timestamps, so the theorems below assert only what holds of
every run of the real sort — a permutation of the input that is
non-decreasing in the single key `timestamp`; no theorem relies on this
model's tie order beyond the sub-cutoff regime. -/
def sort_values_by_timestamp (l : List AmmEntry) : List AmmEntry :=
  List.insertionSort entryLE l

/-- `prepare_amm_data`: build the entries (a `KeyError` escapes), assert the
collection is non-empty, sort by timestamp. -/
def prepare_amm_data (amm_data : List AmmRec) : Except PrepareError (List AmmEntry) :=
  match amm_data.mapM entryOfAmmRec with
  | none => .error .keyError
  | some data =>
      if data.isEmpty then .error .noAmmDataFound
      else .ok (sort_values_by_timestamp data)

/-- The failures a whole scan can surface to its caller, by provenance:
transport exceptions from the RPC layer versus the assembler's own
exceptions. -/
inductive PipelineError where
  | transport (e : AttemptFailure) : PipelineError
  | prepare (e : PrepareError) : PipelineError
deriving DecidableEq

/-- Whether a pipeline failure is a transport failure. -/
def PipelineError.isTransport : PipelineError → Bool
  | .transport _ => true
  | .prepare _ => false

/-! ## C4: point-in-time join, partial state tolerated -/

lemma scanAccountLines_fst_none (asset_1 asset_2 : String) :
    ∀ (ls : List Line) (m2 : Option ℚ),
      (∀ l ∈ ls, decode_currency_symbol l.currency ≠ .ok asset_1) →
      ∀ r, scanAccountLines asset_1 asset_2 ls none m2 = .ok r → r.1 = none := by
  intro ls
  induction ls with
  | nil =>
      intro m2 _ r hr
      simp only [scanAccountLines, Except.ok.injEq] at hr
      subst hr
      rfl
  | cons l rest ih =>
      intro m2 hno r hr
      cases hdec : decode_currency_symbol l.currency with
      | error e => simp [scanAccountLines, hdec] at hr
      | ok c =>
          by_cases hc1 : c = asset_1
          · exact absurd (hc1 ▸ hdec) (hno l (List.mem_cons_self l rest))
          · by_cases hc2 : c = asset_2
            · simp only [scanAccountLines, hdec] at hr
              rw [if_neg hc1, if_pos hc2] at hr
              injection hr with hr
              subst hr
              rfl
            · simp only [scanAccountLines, hdec] at hr
              rw [if_neg hc1, if_neg hc2] at hr
              exact ih m2 (fun x hx => hno x (List.mem_cons_of_mem l hx)) r hr

lemma scanAccountLines_snd_none (asset_1 asset_2 : String) :
    ∀ (ls : List Line) (m1 : Option ℚ),
      (∀ l ∈ ls, decode_currency_symbol l.currency ≠ .ok asset_2) →
      ∀ r, scanAccountLines asset_1 asset_2 ls m1 none = .ok r → r.2 = none := by
  intro ls
  induction ls with
  | nil =>
      intro m1 _ r hr
      simp only [scanAccountLines, Except.ok.injEq] at hr
      subst hr
      rfl
  | cons l rest ih =>
      intro m1 hno r hr
      cases hdec : decode_currency_symbol l.currency with
      | error e => simp [scanAccountLines, hdec] at hr
      | ok c =>
          by_cases hc2 : c = asset_2
          · exact absurd (hc2 ▸ hdec) (hno l (List.mem_cons_self l rest))
          · simp only [scanAccountLines, hdec] at hr
            by_cases hc1 : c = asset_1
            · rw [if_pos hc1] at hr
              exact ih (some l.balance) (fun x hx => hno x (List.mem_cons_of_mem l hx)) r hr
            · rw [if_neg hc1, if_neg hc2] at hr
              exact ih m1 (fun x hx => hno x (List.mem_cons_of_mem l hx)) r hr

/-- C4.  The join for a sampled event at ledger index `idx`:
(1) every auxiliary query it issues — the `AccountLines` request, and the
`get_balance` request — is pinned to exactly `idx` (point-in-time, never
"current");
(2) a successful join issues the balance query precisely when one side of
the configured pair is XRP;
(3, 4) when a configured non-XRP asset has no matching entry among the
returned account lines, the corresponding amount field comes back unset
rather than the join failing;
(5) the assembler turns such a record into a flat entry whose amount fields
are those same optional values — an unset amount stays unset, the record is
still produced. -/
theorem state_join_pinned_and_tolerant
    (svc : AmmSvc) (asset_1 asset_2 : String) (idx : Int) :
    (∀ q ∈ (joinEvent svc asset_1 asset_2 idx).1, q.ledgerIndex = idx) ∧
      (∀ m1 m2, (joinEvent svc asset_1 asset_2 idx).2 = .ok (m1, m2) →
        (AuxQuery.balanceQuery idx ∈ (joinEvent svc asset_1 asset_2 idx).1 ↔
          (asset_1 = "XRP" ∨ asset_2 = "XRP"))) ∧
      (asset_1 ≠ "XRP" →
        (∀ l ∈ svc.lines idx, decode_currency_symbol l.currency ≠ .ok asset_1) →
        ∀ m1 m2, (joinEvent svc asset_1 asset_2 idx).2 = .ok (m1, m2) → m1 = none) ∧
      (asset_2 ≠ "XRP" →
        (∀ l ∈ svc.lines idx, decode_currency_symbol l.currency ≠ .ok asset_2) →
        ∀ m1 m2, (joinEvent svc asset_1 asset_2 idx).2 = .ok (m1, m2) → m2 = none) ∧
      (∀ (r : AmmRec) (tj : TxJson), r.tx.txJson = some tj →
        ∃ e, entryOfAmmRec r = some e ∧
          e.amm_asset_1_amount = r.amm_asset_1_amount ∧
          e.amm_asset_2_amount = r.amm_asset_2_amount) := by
  refine ⟨?_, ?_, ?_, ?_, ?_⟩
  · intro q hq
    unfold joinEvent at hq
    cases hscan : scanAccountLines asset_1 asset_2 (svc.lines idx) none none with
    | error e =>
        rw [hscan] at hq
        simp at hq
        simp [hq, AuxQuery.ledgerIndex]
    | ok p =>
        rw [hscan] at hq
        by_cases h1 : asset_1 = "XRP"
        · simp [h1] at hq
          rcases hq with hq | hq <;> simp [hq, AuxQuery.ledgerIndex]
        · by_cases h2 : asset_2 = "XRP"
          · simp [h1, h2] at hq
            rcases hq with hq | hq <;> simp [hq, AuxQuery.ledgerIndex]
          · simp [h1, h2] at hq
            simp [hq, AuxQuery.ledgerIndex]
  · intro m1 m2 hjoin
    unfold joinEvent at hjoin ⊢
    cases hscan : scanAccountLines asset_1 asset_2 (svc.lines idx) none none with
    | error e =>
        rw [hscan] at hjoin
        simp at hjoin
    | ok p =>
        obtain ⟨p1, p2⟩ := p
        by_cases h1 : asset_1 = "XRP"
        · simp [h1]
        · by_cases h2 : asset_2 = "XRP"
          · simp [h1, h2]
          · simp [h1, h2]
  · intro h1 hno m1 m2 hok
    unfold joinEvent at hok
    cases hscan : scanAccountLines asset_1 asset_2 (svc.lines idx) none none with
    | error e =>
        rw [hscan] at hok
        simp at hok
    | ok p =>
        obtain ⟨p1, p2⟩ := p
        have hp1 : p1 = none := by
          simpa using scanAccountLines_fst_none asset_1 asset_2 (svc.lines idx) none hno
            (p1, p2) hscan
        rw [hscan] at hok
        by_cases h2 : asset_2 = "XRP"
        · simp [h1, h2] at hok
          rw [← hok.1]
          exact hp1
        · simp [h1, h2] at hok
          rw [← hok.1]
          exact hp1
  · intro h2 hno m1 m2 hok
    unfold joinEvent at hok
    cases hscan : scanAccountLines asset_1 asset_2 (svc.lines idx) none none with
    | error e =>
        rw [hscan] at hok
        simp at hok
    | ok p =>
        obtain ⟨p1, p2⟩ := p
        have hp2 : p2 = none := by
          simpa using scanAccountLines_snd_none asset_1 asset_2 (svc.lines idx) none hno
            (p1, p2) hscan
        rw [hscan] at hok
        by_cases h1 : asset_1 = "XRP"
        · simp [h1, h2] at hok
          rw [← hok.2]
          exact hp2
        · simp [h1, h2] at hok
          rw [← hok.2]
          exact hp2
  · intro r tj htj
    refine ⟨⟨ripple_time_to_unix tj.date, r.tx.hash, r.tx.ledger_index, r.market,
      r.amm_asset_1, r.amm_asset_2, r.amm_asset_1_amount, r.amm_asset_2_amount, r⟩,
      ?_, rfl, rfl⟩
    simp [entryOfAmmRec, htj]

/-- Witness for `state_join_pinned_and_tolerant`: lines at index 77 hold only
an unrelated currency (`"4142"` = "AB"), asset pair "CD"/"EF". -/
theorem state_join_pinned_and_tolerant_witness :
    ((joinEvent ⟨fun _ => ⟨[], none⟩, fun _ => [⟨"4142", 5⟩], fun _ => 9⟩ "CD" "EF" 77).2 =
        .ok (none, none)) ∧
      (∀ q ∈ (joinEvent ⟨fun _ => ⟨[], none⟩, fun _ => [⟨"4142", 5⟩], fun _ => 9⟩
        "CD" "EF" 77).1, q.ledgerIndex = 77) := by
  constructor
  · decide
  · exact (state_join_pinned_and_tolerant
      ⟨fun _ => ⟨[], none⟩, fun _ => [⟨"4142", 5⟩], fun _ => 9⟩ "CD" "EF" 77).1

/-! ## C7: output ordering -/

/-- Two joined records with the same timestamp, input order: ledger 2 /
hash "hb" before ledger 1 / hash "ha". -/
def ammRecTieB : AmmRec :=
  ⟨⟨2, some ⟨"Payment", 50⟩, "hb"⟩, "acc", "A", "B", none, none⟩

/-- The tied record at ledger 1, hash "ha", placed second in the input. -/
def ammRecTieA : AmmRec :=
  ⟨⟨1, some ⟨"Payment", 50⟩, "ha"⟩, "acc", "A", "B", none, none⟩

/-- The flat entry of `ammRecTieB`. -/
def ammEntryTieB : AmmEntry :=
  ⟨946684850, "hb", 2, "acc", "A", "B", none, none, ammRecTieB⟩

/-- The flat entry of `ammRecTieA`. -/
def ammEntryTieA : AmmEntry :=
  ⟨946684850, "ha", 1, "acc", "A", "B", none, none, ammRecTieA⟩

/-- C7 counterexample.  `sort_values(by="timestamp")` compares nothing but
the timestamp: on this 2-row input (where the model is byte-exact — numpy
runs plain insertion sort below its cutoff) the output keeps the entry with
ledger index 2 / hash "hb" *before* the one with ledger index 1 / hash
"ha", so ties are not broken by ledger index and then hash as claimed. -/
theorem assembler_no_tiebreak_counterexample :
    prepare_amm_data [ammRecTieB, ammRecTieA] = .ok [ammEntryTieB, ammEntryTieA] ∧
      ammEntryTieB.timestamp = ammEntryTieA.timestamp ∧
      ammEntryTieA.ledger_index < ammEntryTieB.ledger_index := by
  refine ⟨by decide, rfl, by decide⟩

/-- C7 amended.  On a non-empty collection of decodable records the
assembler succeeds, and whatever it outputs is a permutation of the built
entries that is non-decreasing in the single sort key `timestamp`; ledger
index and hash take no part in the comparison, so the order among entries
of equal timestamp is whatever the underlying sort produces — it is *not*
a (ledger index, hash) tie-break. -/
theorem assembler_sorted_by_timestamp
    (amm_data : List AmmRec) (data out : List AmmEntry)
    (hmap : amm_data.mapM entryOfAmmRec = some data)
    (hne : data ≠ [])
    (hout : prepare_amm_data amm_data = .ok out) :
    List.Sorted entryLE out ∧ out.Perm data := by
  have hpre : prepare_amm_data amm_data = .ok (sort_values_by_timestamp data) := by
    unfold prepare_amm_data
    rw [hmap]
    simp [hne]
  rw [hpre] at hout
  injection hout with hout
  subst hout
  exact ⟨List.sorted_insertionSort entryLE data, List.perm_insertionSort entryLE data⟩

/-- Witness for `assembler_sorted_by_timestamp` on the tied pair. -/
theorem assembler_sorted_by_timestamp_witness :
    List.Sorted entryLE [ammEntryTieB, ammEntryTieA] ∧
      [ammEntryTieB, ammEntryTieA].Perm [ammEntryTieB, ammEntryTieA] :=
  assembler_sorted_by_timestamp [ammRecTieB, ammRecTieA]
    [ammEntryTieB, ammEntryTieA] [ammEntryTieB, ammEntryTieA]
    (by decide) (by decide) (by decide)

/-! ## C8: decode failure versus the scan -/

/-- An AMM service whose account lines at ledger index 10 hold a malformed
currency code (`"ZZ"` is not hex), while a second, perfectly decodable
Payment follows in the same page at index 20. -/
def svcAmmBadHex : AmmSvc where
  pages := fun _ =>
    ⟨[⟨10, some ⟨"Payment", 0⟩, "h10"⟩, ⟨20, some ⟨"Payment", 9000⟩, "h20"⟩], none⟩
  lines := fun i => if i = 10 then [⟨"ZZ", 1⟩] else [⟨"4142", 5⟩]
  xrpBalance := fun _ => 0

/-- C8 counterexample.  A malformed currency symbol in the auxiliary data of
the very first sampled event makes `decode_currency_symbol` raise; nothing
catches it, so the generator aborts with zero records — the later valid
Payment at index 20 is never emitted.  Decode failure is *not* a per-record
data-quality error and it *does* abort the whole scan. -/
theorem decode_failure_aborts_scan_counterexample :
    walkAmm svcAmmBadHex "acc" "AB" "CD" 3600 1000000 5 0 none none [] =
        ⟨[], 1, .decodeFailure⟩ ∧
      decode_currency_symbol "ZZ" = .error .valueError ∧
      decode_currency_symbol "80" = .error .unicodeDecodeError ∧
      admitsPayment ⟨20, some ⟨"Payment", 9000⟩, "h20"⟩ = true := by
  refine ⟨by decide, by decide, by decide, rfl⟩

/-- C8 amended.  When the drain of the current page hits a decode failure
(malformed hex or invalid UTF-8 in a currency symbol), the exception
propagates out of the generator: the walker stops at once with the records
yielded so far, issuing no further page request and emitting nothing else —
the whole scan is aborted, not a single record skipped. -/
theorem decode_failure_aborts_scan
    (svc : AmmSvc) (account asset_1 asset_2 : String) (max_freq cap : Int)
    (fuel n : Nat) (last_event lastIdx : Option Int) (acc acc' : List AmmRec)
    (e : DecodeError)
    (h : drainAmm svc account asset_1 asset_2 max_freq (svc.pages n).txs
      last_event lastIdx acc = .failed acc' e) :
    walkAmm svc account asset_1 asset_2 max_freq cap (fuel + 1) n last_event lastIdx acc =
      ⟨acc', 1, .decodeFailure⟩ := by
  simp [walkAmm, h]

/-- Witness for `decode_failure_aborts_scan` on `svcAmmBadHex`. -/
theorem decode_failure_aborts_scan_witness :
    walkAmm svcAmmBadHex "acc" "AB" "CD" 3600 1000000 3 0 none none [] =
      ⟨[], 1, .decodeFailure⟩ :=
  decode_failure_aborts_scan svcAmmBadHex "acc" "AB" "CD" 3600 1000000 2 0 none none []
    [] .valueError (by decide)

/-! ## C9: the empty result -/

/-- An AMM service whose history holds only an `OfferCreate` transaction:
nothing passes the Payment type filter. -/
def svcAmmNoMatch : AmmSvc where
  pages := fun _ => ⟨[⟨10, some ⟨"OfferCreate", 0⟩, "h10"⟩], none⟩
  lines := fun _ => []
  xrpBalance := fun _ => 0

/-- C9.  A scan in which no transaction matches the type filter completes
normally with zero records (no crash in the walker); the assembler then
fails on the empty collection with its `"No AMM data found"` condition,
which reaches the caller as a `prepare`-side failure distinct from every
transport failure. -/
theorem empty_result_distinct_from_transport :
    walkAmm svcAmmNoMatch "acc" "AB" "CD" 3600 1000000 5 0 none none [] =
        ⟨[], 1, .done⟩ ∧
      prepare_amm_data [] = .error .noAmmDataFound ∧
      (PipelineError.prepare .noAmmDataFound).isTransport = false ∧
      ∀ e : AttemptFailure, (PipelineError.transport e).isTransport = true := by
  refine ⟨by decide, by decide, rfl, fun e => rfl⟩

/-! ## Selective cache: `utils/cache.py`, `selective_lru_cache`

`selective_lru_cache(arg_names)` wraps `func` in `cached_func`, which is
itself decorated with `functools.lru_cache`.  `lru_cache` keys on the
*complete* `(args, kwargs)` tuple of the call; `cached_func`'s body builds
`cache_key` from `arg_names` (raising `ValueError` when a name is in
neither `kwargs` nor the positional slice of the signature) and then calls
`func(*args, **kwargs)` — `cache_key` is dead code.  Values are modelled in
a type `V`; `maxsize` eviction only shrinks the table and is not modelled. -/

/-- `name in kwargs` / `kwargs[name]`. -/
def kwargsLookup {V : Type} : List (String × V) → String → Option V
  | [], _ => none
  | (k, v) :: rest, name => if k = name then some v else kwargsLookup rest name

/-- `sig.index(name)`; `none` is the `ValueError` on an absent name. -/
def sigIndex : List String → String → Option Nat
  | [], _ => none
  | s :: rest, name => if s = name then some 0 else (sigIndex rest name).map (· + 1)

/-- One `cache_key` component: `kwargs[name]` if present, else
`args[sig.index(name)]`; `IndexError` and `ValueError` are both re-raised
as `ValueError`. -/
def findArg {V : Type} (sig : List String) (args : List V)
    (kwargs : List (String × V)) (name : String) : Except Unit V :=
  match kwargsLookup kwargs name with
  | some v => .ok v
  | none =>
      match sigIndex sig name with
      | some idx =>
          match args[idx]? with
          | some v => .ok v
          | none => .error ()
      | none => .error ()

/-- The `cache_key` tuple `cached_func` builds — and then never uses. -/
def buildCacheKey {V : Type} (argNames sig : List String) (args : List V)
    (kwargs : List (String × V)) : Except Unit (List V) :=
  argNames.mapM (findArg sig args kwargs)

/-- The `lru_cache` memo table around `cached_func`, keyed on the complete
call signature `(args, kwargs)` — not on the selective `cache_key`. -/
structure LruState (V : Type) where
  entries : List ((List V × List (String × V)) × V)

/-- Lookup in the memo table. -/
def memoLookup {V : Type} [DecidableEq V] :
    List ((List V × List (String × V)) × V) → List V × List (String × V) → Option V
  | [], _ => none
  | (k, v) :: rest, key => if k = key then some v else memoLookup rest key

/-- One call of the decorated wrapper: a hit on the full argument tuple
returns the stored value without running `cached_func`; a miss runs
`cached_func` — build `cache_key` (possibly raising `ValueError`, in which
case nothing is stored and `func` never runs), ignore it, call
`func(*args, **kwargs)` and store the result under the full tuple.
Returns (result, new table, whether `func` was invoked). -/
def cachedCall {V : Type} [DecidableEq V] (func : List V → List (String × V) → V)
    (argNames sig : List String) (st : LruState V) (args : List V)
    (kwargs : List (String × V)) : Except Unit V × LruState V × Bool :=
  match memoLookup st.entries (args, kwargs) with
  | some v => (.ok v, st, false)
  | none =>
      match buildCacheKey argNames sig args kwargs with
      | .error e => (.error e, st, false)
      | .ok _cache_key =>
          (.ok (func args kwargs), ⟨((args, kwargs), func args kwargs) :: st.entries⟩, true)

/-- Every stored value is `func` at its own full argument tuple. -/
def CacheFaithful {V : Type} (func : List V → List (String × V) → V)
    (st : LruState V) : Prop :=
  ∀ p ∈ st.entries, p.2 = func p.1.1 p.1.2

lemma memoLookup_mem {V : Type} [DecidableEq V] :
    ∀ (l : List ((List V × List (String × V)) × V)) (key : List V × List (String × V)) (v : V),
      memoLookup l key = some v → (key, v) ∈ l := by
  intro l
  induction l with
  | nil => intro key v h; simp [memoLookup] at h
  | cons p rest ih =>
      obtain ⟨pk, pv⟩ := p
      intro key v h
      simp only [memoLookup] at h
      by_cases hk : pk = key
      · rw [if_pos hk] at h
        injection h with h
        subst hk
        subst h
        exact List.mem_cons_self _ _
      · rw [if_neg hk] at h
        exact List.mem_cons_of_mem _ (ih key v h)

/-- `func(42, 7)` stand-in for the counterexample and witness. -/
def sumFunc (args : List Int) (kwargs : List (String × Int)) : Int :=
  (args.map id).foldl (· + ·) 0 + (kwargs.map Prod.snd).foldl (· + ·) 0

/-- C10 counterexample.  Decorating `def f(x, y=0)` with
`selective_lru_cache(["y"])` and calling `f(5)` — leaving the named
argument `y` to its default — makes the wrapper raise `ValueError` from the
cache-key construction instead of returning `func(5)`:
`y` is in neither `kwargs` nor the positional arguments, so the claim that
the wrapper returns exactly `func(*args, **kwargs)` on *every* call fails.
`func` is never even invoked. -/
theorem cache_default_arg_counterexample :
    (cachedCall sumFunc ["y"] ["x", "y"] ⟨[]⟩ [5] []).1 = .error () ∧
      (cachedCall sumFunc ["y"] ["x", "y"] ⟨[]⟩ [5] []).2.2 = false ∧
      sumFunc [5] [] = 5 := by
  refine ⟨by decide, by decide, by decide⟩

/-- C10 amended.  Whenever the cache key builds (every name of `arg_names`
is found in `kwargs` or among the positionals), the wrapper returns exactly
`func(*args, **kwargs)`: the selective key is computed but never used for
memoization — the underlying `lru_cache` keys on the complete argument
tuple — so a memo hit only ever returns a value previously computed by
`func` on that exact full tuple, never one from a call agreeing merely on
the named arguments; and any call with a fresh full tuple invokes `func`
itself.  A call whose named argument is satisfied only by a default raises
`ValueError` instead. -/
theorem cache_wrapper_transparent
    {V : Type} [DecidableEq V] (func : List V → List (String × V) → V)
    (argNames sig : List String) (st : LruState V) (args : List V)
    (kwargs : List (String × V)) (key : List V)
    (hst : CacheFaithful func st)
    (hkey : buildCacheKey argNames sig args kwargs = .ok key) :
    (cachedCall func argNames sig st args kwargs).1 = .ok (func args kwargs) ∧
      CacheFaithful func (cachedCall func argNames sig st args kwargs).2.1 ∧
      (memoLookup st.entries (args, kwargs) = none →
        (cachedCall func argNames sig st args kwargs).2.2 = true) := by
  cases hmem : memoLookup st.entries (args, kwargs) with
  | some v =>
      have hv : v = func args kwargs := by
        simpa using hst _ (memoLookup_mem st.entries (args, kwargs) v hmem)
      refine ⟨?_, ?_, ?_⟩
      · simp only [cachedCall, hmem]
        rw [hv]
      · simpa only [cachedCall, hmem] using hst
      · intro h
        simp at h
  | none =>
      refine ⟨?_, ?_, ?_⟩
      · simp [cachedCall, hmem, hkey]
      · intro p hp
        simp only [cachedCall, hmem, hkey, List.mem_cons] at hp
        rcases hp with hp | hp
        · rw [hp]
        · exact hst p hp
      · intro _
        simp [cachedCall, hmem, hkey]

/-- Witness for `cache_wrapper_transparent`: `f(3, 4)` with
`arg_names = ["x"]` on an empty table returns `func([3,4], []) = 7` and
runs `func`. -/
theorem cache_wrapper_transparent_witness :
    (cachedCall sumFunc ["x"] ["x", "y"] ⟨[]⟩ [3, 4] []).1 = .ok (sumFunc [3, 4] []) ∧
      CacheFaithful sumFunc (cachedCall sumFunc ["x"] ["x", "y"] ⟨[]⟩ [3, 4] []).2.1 ∧
      (memoLookup (LruState.entries (⟨[]⟩ : LruState Int)) (([3, 4] : List Int), []) = none →
        (cachedCall sumFunc ["x"] ["x", "y"] ⟨[]⟩ [3, 4] []).2.2 = true) :=
  cache_wrapper_transparent sumFunc ["x"] ["x", "y"] ⟨[]⟩ [3, 4] [] [3]
    (fun p hp => absurd hp (by simp)) (by decide)

end XrplDefi
